import Mathlib

/-!
Verification of the clothfigurator repository (three Python scripts:
`create-folders.py`, `create_materials.py`, `downloadTextures.py`)
against its natural-language specification.

Strings are modelled as `List Char` (Python code points).  Python's
character classes are modelled over ASCII: `str.strip()` / regex `\s`
strip the six ASCII whitespace characters, `str.lower()` / `str.upper()`
act on the 26 ASCII letters.  Machine-level concerns (actual sockets,
actual disk I/O) are modelled by a fetch oracle and an explicit
filesystem state over an event trace.
-/

/-- The six ASCII characters matched by Python's `str.strip()` and regex `\s`. -/
def spaceChars : List Char := [' ', '\t', '\n', '\r', '\x0b', '\x0c']

def pyIsSpace (c : Char) : Bool := spaceChars.contains c

/-- Character class of `re.sub(r"[\s/\\]+", "_", ...)` in `create-folders.py`. -/
def isSep (c : Char) : Bool := pyIsSpace c || c == '/' || c == '\\'

/-- Characters kept by `re.sub(r"[^a-z0-9_]", "", ...)` in `create-folders.py`. -/
def slugChars : List Char :=
  ['a','b','c','d','e','f','g','h','i','j','k','l','m','n','o','p','q','r','s','t',
   'u','v','w','x','y','z','0','1','2','3','4','5','6','7','8','9','_']

def isSlugKeep (c : Char) : Bool := slugChars.contains c

/-- Characters kept by `re.sub(r'[^A-Za-z0-9-]', '', ...)` in `create_materials.py`. -/
def tokChars : List Char :=
  ['A','B','C','D','E','F','G','H','I','J','K','L','M','N','O','P','Q','R','S','T',
   'U','V','W','X','Y','Z',
   'a','b','c','d','e','f','g','h','i','j','k','l','m','n','o','p','q','r','s','t',
   'u','v','w','x','y','z','0','1','2','3','4','5','6','7','8','9','-']

def isTokKeep (c : Char) : Bool := tokChars.contains c

/-- The characters claimed in §8 for `tokenize_for_asset_name` output: `[A-Z0-9-]`. -/
def tokOutChars : List Char :=
  ['A','B','C','D','E','F','G','H','I','J','K','L','M','N','O','P','Q','R','S','T',
   'U','V','W','X','Y','Z','0','1','2','3','4','5','6','7','8','9','-']

def isTokOut (c : Char) : Bool := tokOutChars.contains c

/-- ASCII lowercasing, as Python `str.lower()` restricted to ASCII. -/
def lowerAscii (c : Char) : Char :=
  match c with
  | 'A' => 'a' | 'B' => 'b' | 'C' => 'c' | 'D' => 'd' | 'E' => 'e' | 'F' => 'f'
  | 'G' => 'g' | 'H' => 'h' | 'I' => 'i' | 'J' => 'j' | 'K' => 'k' | 'L' => 'l'
  | 'M' => 'm' | 'N' => 'n' | 'O' => 'o' | 'P' => 'p' | 'Q' => 'q' | 'R' => 'r'
  | 'S' => 's' | 'T' => 't' | 'U' => 'u' | 'V' => 'v' | 'W' => 'w' | 'X' => 'x'
  | 'Y' => 'y' | 'Z' => 'z' | d => d

/-- ASCII uppercasing, as Python `str.upper()` restricted to ASCII. -/
def upperAscii (c : Char) : Char :=
  match c with
  | 'a' => 'A' | 'b' => 'B' | 'c' => 'C' | 'd' => 'D' | 'e' => 'E' | 'f' => 'F'
  | 'g' => 'G' | 'h' => 'H' | 'i' => 'I' | 'j' => 'J' | 'k' => 'K' | 'l' => 'L'
  | 'm' => 'M' | 'n' => 'N' | 'o' => 'O' | 'p' => 'P' | 'q' => 'Q' | 'r' => 'R'
  | 's' => 'S' | 't' => 'T' | 'u' => 'U' | 'v' => 'V' | 'w' => 'W' | 'x' => 'X'
  | 'y' => 'Y' | 'z' => 'Z' | d => d

/-- Drop a run of `p`-characters from the end of a list (Python `rstrip`). -/
def dropTrail (p : Char → Bool) (l : List Char) : List Char :=
  (l.reverse.dropWhile p).reverse

/-- Python `str.strip(class)`: drop `p`-characters from both ends. -/
def stripBy (p : Char → Bool) (l : List Char) : List Char :=
  dropTrail p (l.dropWhile p)

/-- Replace every maximal run of `p`-characters by the single character `rep`.
`inRun` records whether the previous character was in a run.  This models
Python `re.sub(r"[class]+", rep, s)`. -/
def runsAux (p : Char → Bool) (rep : Char) : Bool → List Char → List Char
  | _, [] => []
  | inRun, c :: cs =>
    if p c then
      (if inRun then runsAux p rep true cs else rep :: runsAux p rep true cs)
    else c :: runsAux p rep false cs

def runs (p : Char → Bool) (rep : Char) (l : List Char) : List Char :=
  runsAux p rep false l

def uscore (c : Char) : Bool := c == '_'

def hyph (c : Char) : Bool := c == '-'

/-- Embeds `slugify` from `create-folders.py`:
`strip`, `lower`, `[\s/\\]+ -> _`, delete `[^a-z0-9_]`, collapse `_+`,
`strip('_')`, default `"unnamed"`. -/
def slugify (l : List Char) : List Char :=
  let t1 := (stripBy pyIsSpace l).map lowerAscii
  let t2 := runs isSep '_' t1
  let t3 := t2.filter isSlugKeep
  let t4 := runs uscore '_' t3
  let t5 := stripBy uscore t4
  if t5.isEmpty then "unnamed".data else t5

/-- Embeds `slugify_for_directories` exactly as the spec words it (§4.2): lowercase;
replace runs of whitespace and path separators with `_`; delete every
character outside `[a-z0-9_]`; collapse repeated `_`; trim leading/trailing
`_`; if empty, return `unnamed`.  (No initial trim step is mentioned.) -/
def slugify_for_directories_spec (l : List Char) : List Char :=
  let t1 := l.map lowerAscii
  let t2 := runs isSep '_' t1
  let t3 := t2.filter isSlugKeep
  let t4 := runs uscore '_' t3
  let t5 := stripBy uscore t4
  if t5.isEmpty then "unnamed".data else t5

/-- Embeds `sanitize_token` from `create_materials.py`.  The Unicode NFKD
accent-stripping step (`strip_accents`) is kept abstract as the parameter
`sa`; on ASCII input it is the identity. -/
def sanitize_token (sa : List Char → List Char) (l : List Char) : List Char :=
  let t0 := stripBy pyIsSpace (sa l)
  let t1 := t0.map (fun c => if c == ' ' then '-' else c)
  let t2 := t1.filter isTokKeep
  let t3 := runs hyph '-' t2
  let t4 := stripBy hyph t3
  t4.map upperAscii

/-- Embeds `tokenize_for_asset_name` exactly as the spec words it (§4.2): strip
accents; trim; replace spaces with `-`; delete outside `[A-Za-z0-9-]`;
collapse repeated `-`; trim leading/trailing `-`; uppercase. -/
def tokenize_for_asset_name_spec (sa : List Char → List Char) (l : List Char) : List Char :=
  let t0 := stripBy pyIsSpace (sa l)
  let t1 := t0.map (fun c => if c == ' ' then '-' else c)
  let t2 := t1.filter isTokKeep
  let t3 := runs hyph '-' t2
  let t4 := stripBy hyph t3
  t4.map upperAscii

/-- Characters replaced by `_` in `sanitize_folder` (`INVALID_WIN`). -/
def invalidWinChars : List Char := ['<', '>', ':', '"', '/', '\\', '|', '?', '*']

def isInvalidWin (c : Char) : Bool := invalidWinChars.contains c

def isDotOrSpace (c : Char) : Bool := c == '.' || c == ' '

/-- Embeds `sanitize_folder`, defined identically in `create_materials.py` and
`downloadTextures.py`: strip; replace `INVALID_WIN` by `_`; collapse `\s+`
to a single space; `rstrip(". ")`; default `"_"`. -/
def sanitize_folder (l : List Char) : List Char :=
  let t0 := (stripBy pyIsSpace l).map (fun c => if isInvalidWin c then '_' else c)
  let t1 := runs pyIsSpace ' ' t0
  let t2 := dropTrail isDotOrSpace t1
  if t2.isEmpty then "_".data else t2

def slugifyS (s : String) : String := String.mk (slugify s.data)

def sanitize_folderS (s : String) : String := String.mk (sanitize_folder s.data)

def sanitize_tokenS (sa : List Char → List Char) (s : String) : String :=
  String.mk (sanitize_token sa s.data)

def stripS (s : String) : String := String.mk (stripBy pyIsSpace s.data)

example : slugifyS "Modern/Silk" = "modern_silk" := by decide

example : sanitize_tokenS (fun x => x) "Modern Silk" = "MODERN-SILK" := by decide

example : sanitize_folderS "Wools" = "Wools" := by decide

example : slugifyS " " = "unnamed" := by decide

/-! ## Catalog model

The catalog is a parsed JSON document.  `JVal` models the JSON values the
scripts traverse; `pyGet` models `dict.get(key)` (returning Python `None`,
i.e. `.null`, when the key is absent), `truthy` models Python truthiness
and `pyOr` models Python's `or`. -/

inductive JVal where
  | null : JVal
  | str (s : String) : JVal
  | list (xs : List JVal) : JVal
  | obj (fields : List (String × JVal)) : JVal

def pyGet : List (String × JVal) → String → JVal
  | [], _ => .null
  | (k, v) :: t, key => if k = key then v else pyGet t key

def truthy : JVal → Bool
  | .null => false
  | .str s => !s.isEmpty
  | .list xs => !xs.isEmpty
  | .obj fields => !fields.isEmpty

def pyOr (a b : JVal) : JVal := if truthy a then a else b

/-- Coerce to a Python `str` where the scripts expect one (a non-string
value at such a position would raise in Python; it is outside the model). -/
def asStr : JVal → String
  | .str s => s
  | _ => ""

def asList : JVal → List JVal
  | .list xs => xs
  | _ => []

def asObj : JVal → List (String × JVal)
  | .obj fields => fields
  | _ => []

namespace CreateMaterials

/-- Embeds `_get_collection_name` from `create_materials.py`:
`(coll.get("collection-name") or coll.get("collection") or "").strip()`. -/
def get_collection_name (coll : JVal) : String :=
  stripS (asStr (pyOr (pyGet (asObj coll) "collection-name")
    (pyOr (pyGet (asObj coll) "collection") (.str ""))))

/-- Embeds `_get_subcollection_list`: `coll.get("subcollection") or []`. -/
def get_subcollection_list (coll : JVal) : List JVal :=
  asList (pyOr (pyGet (asObj coll) "subcollection") (.list []))

/-- Embeds `_get_subcollection_name`:
`(sub.get("subcollection-name") or sub.get("name") or "").strip()`. -/
def get_subcollection_name (sub : JVal) : String :=
  stripS (asStr (pyOr (pyGet (asObj sub) "subcollection-name")
    (pyOr (pyGet (asObj sub) "name") (.str ""))))

/-- Embeds `_get_variations_list`: `v = sub.get("variations")`; if `v is None`,
`v = sub.get("variation")`; `return v or []`. -/
def get_variations_list (sub : JVal) : List JVal :=
  let v := match pyGet (asObj sub) "variations" with
    | .null => pyGet (asObj sub) "variation"
    | w => w
  asList (pyOr v (.list []))

/-- Embeds `_get_variation_label`: for a dict, `"{name}-{pattern}"` when both are
present, else whichever is present; for a bare string, the stripped string.
(Python `str(...)` of a non-string, non-dict item is outside the model.) -/
def get_variation_label (variation_item : JVal) : String :=
  match variation_item with
  | .obj fields =>
    let vname := stripS (asStr (pyOr (pyGet fields "variation-name") (.str "")))
    let vpat := stripS (asStr (pyOr (pyGet fields "variation-pattern") (.str "")))
    if vname ≠ "" ∧ vpat ≠ "" then vname ++ "-" ++ vpat
    else if vname ≠ "" then vname
    else if vpat ≠ "" then vpat
    else ""
  | .str s => stripS s
  | _ => ""

def PARENT_MATERIAL_OBJECT_PATH : String := "/Game/Materials/MI_Sample.MI_Sample"

structure MatSpec where
  name : String
  package_path : String
  asset_path : String
  object_path : String
  filesystem_path : List String
  parent : String

/-- The body of the variation loop of `build_material_specs`: `None` when
the entry is skipped (`if not (coll_tok and sub_tok and var_tok): continue`). -/
def specForVar (sa : List Char → List Char) (coll_raw coll_folder sub_raw sub_folder : String)
    (base_fs_root_vendor : List String) (base_asset_root_vendor : String)
    (var : JVal) : Option MatSpec :=
  let var_raw := get_variation_label var
  let coll_tok := sanitize_tokenS sa coll_raw
  let sub_tok := sanitize_tokenS sa sub_raw
  let var_tok := sanitize_tokenS sa var_raw
  if coll_tok ≠ "" ∧ sub_tok ≠ "" ∧ var_tok ≠ "" then
    let name := "MI_" ++ coll_tok ++ "_" ++ sub_tok ++ "_" ++ var_tok
    let folder_rel := if sub_folder ≠ "" then coll_folder ++ "/" ++ sub_folder else coll_folder
    let package_path := if folder_rel ≠ "" then base_asset_root_vendor ++ "/" ++ folder_rel
      else base_asset_root_vendor
    let asset_path := package_path ++ "/" ++ name
    let object_path := asset_path ++ "." ++ name
    some { name := name
           package_path := package_path
           asset_path := asset_path
           object_path := object_path
           filesystem_path := base_fs_root_vendor ++ [coll_folder, sub_folder, name ++ ".uasset"]
           parent := PARENT_MATERIAL_OBJECT_PATH }
  else none

/-- The subcollection loop body of `build_material_specs`. -/
def specsForSub (sa : List Char → List Char) (coll_raw coll_folder : String)
    (base_fs_root_vendor : List String) (base_asset_root_vendor : String)
    (sub : JVal) : List MatSpec :=
  let sub_raw := get_subcollection_name sub
  if sub_raw = "" then []
  else
    let sub_folder := sanitize_folderS sub_raw
    (get_variations_list sub).filterMap
      (specForVar sa coll_raw coll_folder sub_raw sub_folder base_fs_root_vendor base_asset_root_vendor)

/-- The collection loop body of `build_material_specs`. -/
def specsForColl (sa : List Char → List Char)
    (base_fs_root_vendor : List String) (base_asset_root_vendor : String)
    (coll : JVal) : List MatSpec :=
  let coll_raw := get_collection_name coll
  if coll_raw = "" then []
  else
    let coll_folder := sanitize_folderS coll_raw
    (get_subcollection_list coll).flatMap
      (specsForSub sa coll_raw coll_folder base_fs_root_vendor base_asset_root_vendor)

/-- Embeds `build_material_specs` from `create_materials.py`. -/
def build_material_specs (sa : List Char → List Char) (data : List JVal)
    (base_fs_root_vendor : List String) (base_asset_root_vendor : String) : List MatSpec :=
  data.flatMap (specsForColl sa base_fs_root_vendor base_asset_root_vendor)

end CreateMaterials

namespace CreateFolders

/-- The collection-name resolution inlined in `create_structure`
(`create-folders.py` line 90):
`collection.get("collection-name") or collection.get("name") or "collection"`.
Note the fallback chain differs from the adapter in the other two scripts. -/
def col_name (coll : JVal) : String :=
  asStr (pyOr (pyGet (asObj coll) "collection-name")
    (pyOr (pyGet (asObj coll) "name") (.str "collection")))

/-- The subcollection-name resolution inlined in `create_structure` (line 104):
`sub.get("subcollection-name") or sub.get("name") or "subcollection"`. -/
def sub_name (sub : JVal) : String :=
  asStr (pyOr (pyGet (asObj sub) "subcollection-name")
    (pyOr (pyGet (asObj sub) "name") (.str "subcollection")))

/-- Embeds `subcollections = collection.get("subcollection") or []`. -/
def sub_list (coll : JVal) : List JVal :=
  asList (pyOr (pyGet (asObj coll) "subcollection") (.list []))

/-- Directory paths are lists of path components. All non-empty prefixes of a
path, as created by `mkdir(parents=True)`. -/
def ancestors (d : List String) : List (List String) :=
  (List.range d.length).map (fun k => d.take (k + 1))

/-- Embeds `ensure_dir`: create the directory if absent; `true` iff created now. -/
def ensure_dir (dirs : List (List String)) (p : List String) :
    Bool × List (List String) :=
  if p ∈ dirs then (false, dirs) else (true, ancestors p ++ dirs)

structure MatSummary where
  created_collections : Nat
  existing_collections : Nat
  created_subcollections : Nat
  existing_subcollections : Nat

/-- The subcollection loop body of `create_structure`. -/
def subStep (col_path : List String) (acc : MatSummary × List (List String))
    (sub : JVal) : MatSummary × List (List String) :=
  let slug := slugifyS (sub_name sub)
  let sub_path := col_path ++ [slug]
  let r := ensure_dir acc.2 sub_path
  if r.1 then
    ({ acc.1 with created_subcollections := acc.1.created_subcollections + 1 }, r.2)
  else
    ({ acc.1 with existing_subcollections := acc.1.existing_subcollections + 1 }, r.2)

/-- The collection loop body of `create_structure`. -/
def collStep (dest : List String) (acc : MatSummary × List (List String))
    (coll : JVal) : MatSummary × List (List String) :=
  let slug := slugifyS (col_name coll)
  let col_path := dest ++ [slug]
  let r := ensure_dir acc.2 col_path
  let acc1 :=
    if r.1 then
      ({ acc.1 with created_collections := acc.1.created_collections + 1 }, r.2)
    else
      ({ acc.1 with existing_collections := acc.1.existing_collections + 1 }, r.2)
  (sub_list coll).foldl (subStep col_path) acc1

/-- Embeds `create_structure` from `create-folders.py`: walks the catalog, creating a
directory per collection and per subcollection, returning the four counters
(and, in this model, the resulting set of directories). -/
def create_structure (collections : List JVal) (dest : List String)
    (dirs0 : List (List String)) : MatSummary × List (List String) :=
  collections.foldl (collStep dest) (⟨0, 0, 0, 0⟩, dirs0)

end CreateFolders

namespace DownloadTextures

/-- Embeds `_get_collection_name` from `downloadTextures.py` (same body as in
`create_materials.py`). -/
def get_collection_name (coll : JVal) : String :=
  stripS (asStr (pyOr (pyGet (asObj coll) "collection-name")
    (pyOr (pyGet (asObj coll) "collection") (.str ""))))

def get_subcollection_list (coll : JVal) : List JVal :=
  asList (pyOr (pyGet (asObj coll) "subcollection") (.list []))

def get_subcollection_name (sub : JVal) : String :=
  stripS (asStr (pyOr (pyGet (asObj sub) "subcollection-name")
    (pyOr (pyGet (asObj sub) "name") (.str ""))))

def get_variations_list (sub : JVal) : List JVal :=
  let v := match pyGet (asObj sub) "variations" with
    | .null => pyGet (asObj sub) "variation"
    | w => w
  asList (pyOr v (.list []))

/-- Embeds `_get_variation_pattern`: for a dict,
`(variation_item.get("variation-pattern") or "").strip()` made into
`Option` by `return vp or None`; a bare string (or anything non-dict)
has no usable pattern. -/
def get_variation_pattern (variation_item : JVal) : Option String :=
  match variation_item with
  | .obj fields =>
    let vp := stripS (asStr (pyOr (pyGet fields "variation-pattern") (.str "")))
    if vp = "" then none else some vp
  | _ => none

/-- Embeds `build_download_url`: pure function of the variation pattern. -/
def build_download_url (variation_pattern : String) : String :=
  let pat := stripS variation_pattern
  "https://images.mayerfabrics.com/item/" ++ pat ++ "/image?download=" ++ pat

/-- One observable step of the fetch engine.  `fetch` is one network request
(attempt number attached); `sleep` is `time.sleep` with its duration;
the remaining constructors are the filesystem operations of the atomic
save (`mkdir(parents=True)`, open-for-write, one `write` per byte,
`Path.replace`). -/
inductive Ev where
  | fetch (url : String) (attempt : Nat)
  | sleep (dur : ℚ)
  | mkdirp (dir : List String)
  | create (p : List String)
  | append (p : List String) (b : Nat)
  | rename (src dst : List String)

/-- Filesystem state: a set of directories and a map path ↦ byte content. -/
structure FS where
  dirs : List (List String)
  files : List (List String × List Nat)

def lookupF : List (List String × List Nat) → List String → Option (List Nat)
  | [], _ => none
  | (q, d) :: t, p => if q = p then some d else lookupF t p

def removeF : List (List String × List Nat) → List String → List (List String × List Nat)
  | [], _ => []
  | (q, d) :: t, p => if q = p then removeF t p else (q, d) :: removeF t p

def setF (files : List (List String × List Nat)) (p : List String) (d : List Nat) :
    List (List String × List Nat) :=
  (p, d) :: removeF files p

/-- A directory exists if it is the root or has been created. -/
def dirOk (fs : FS) (d : List String) : Prop := d = [] ∨ d ∈ fs.dirs

instance (fs : FS) (d : List String) : Decidable (dirOk fs d) := by
  unfold dirOk; infer_instance

def applyEv (fs : FS) : Ev → FS
  | .fetch _ _ => fs
  | .sleep _ => fs
  | .mkdirp d => { fs with dirs := CreateFolders.ancestors d ++ fs.dirs }
  | .create p => if dirOk fs p.dropLast then { fs with files := setF fs.files p [] } else fs
  | .append p b =>
    match lookupF fs.files p with
    | some d => { fs with files := setF fs.files p (d ++ [b]) }
    | none => fs
  | .rename src dst =>
    match lookupF fs.files src with
    | some d => { fs with files := setF (removeF fs.files src) dst d }
    | none => fs

def runEvs (fs : FS) (evs : List Ev) : FS := evs.foldl applyEv fs

/-- Models `dest_path.with_suffix(dest_path.suffix + '.part')`: for the destinations
this program produces (`{pattern}.jpg`) this appends `.part` to the name. -/
def tmpPath (dest : List String) : List String :=
  dest.dropLast ++ [(dest.getLast?.getD "") ++ ".part"]

/-- The events of one successful attempt of `download_with_retries`:
the fetch, `dest_path.parent.mkdir(parents=True, exist_ok=True)`, the full
write of the response bytes to the temporary sibling, then
`tmp.replace(dest_path)`. -/
def successEvs (url : String) (attempt : Nat) (dest : List String) (data : List Nat) :
    List Ev :=
  .fetch url attempt :: .mkdirp dest.dropLast :: .create (tmpPath dest) ::
    (data.map (Ev.append (tmpPath dest)) ++ [.rename (tmpPath dest) dest])

/-- The retry loop of `download_with_retries`, over the list of remaining
attempt numbers.  The oracle gives each attempt's outcome: response bytes, or
the description of the caught transient exception (`HTTPError`, `URLError`,
`TimeoutError`, `socket.timeout`, `OSError`).  On failure before the final
attempt it sleeps `backoff ** attempt`; after the final one it breaks and
returns `False` with `str(last_err)` (or `"error"` if no attempt ran). -/
def dwrLoop (oracle : String → Nat → Except String (List Nat)) (url : String)
    (dest : List String) (backoff : ℚ) :
    List Nat → Option String → (Bool × String) × List Ev
  | [], lastErr => ((false, lastErr.getD "error"), [])
  | a :: rest, lastErr =>
    match oracle url a with
    | .ok data => ((true, "ok"), successEvs url a dest data)
    | .error e =>
      let r := dwrLoop oracle url dest backoff rest (some e)
      (r.1, .fetch url a :: (if rest.isEmpty then r.2 else .sleep (backoff ^ a) :: r.2))

/-- Embeds `download_with_retries` from `downloadTextures.py` (defaults
`retries=3`, `backoff=1.5`; the per-request `timeout` has no observable
effect in this model beyond the oracle's outcome). -/
def download_with_retries (oracle : String → Nat → Except String (List Nat))
    (url : String) (dest : List String) (retries : Nat) (backoff : ℚ) :
    (Bool × String) × List Ev :=
  dwrLoop oracle url dest backoff (List.range' 1 retries) none

/-- Running state of `process_all`: the counters and error list it returns,
plus the filesystem and the accumulated event trace. -/
structure St where
  downloaded : Nat
  skipped : Nat
  failed : Nat
  errors : List String
  fs : FS
  evs : List Ev

/-- The variation loop body of `process_all` (lines 205–225): no usable
pattern → one failure entry; existing destination → skipped, nothing else
happens; otherwise `download_with_retries` with the source's defaults. -/
def handleVariation (oracle : String → Nat → Except String (List Nat))
    (coll_name sub_name : String) (target_dir : List String) (st : St) (var : JVal) : St :=
  match get_variation_pattern var with
  | none =>
    { st with failed := st.failed + 1
              errors := st.errors ++ ["Sin 'variation-pattern' -> " ++ coll_name ++ "/" ++ sub_name] }
  | some pattern =>
    let url := build_download_url pattern
    let dest_file := target_dir ++ [pattern ++ ".jpg"]
    if (lookupF st.fs.files dest_file).isSome then
      { st with skipped := st.skipped + 1 }
    else
      let r := download_with_retries oracle url dest_file 3 (3 / 2 : ℚ)
      let fs' := runEvs st.fs r.2
      if r.1.1 then
        { st with downloaded := st.downloaded + 1, fs := fs', evs := st.evs ++ r.2 }
      else
        { st with failed := st.failed + 1,
                  errors := st.errors ++ [pattern ++ ": " ++ r.1.2],
                  fs := fs', evs := st.evs ++ r.2 }

/-- The subcollection loop body of `process_all`. -/
def processSub (oracle : String → Nat → Except String (List Nat))
    (dest_root : List String) (coll_name coll_folder : String) (st : St) (sub : JVal) : St :=
  let sn := get_subcollection_name sub
  if sn = "" then st
  else
    let sub_folder := sanitize_folderS sn
    let target_dir := dest_root ++ [coll_folder, sub_folder]
    (get_variations_list sub).foldl (handleVariation oracle coll_name sn target_dir) st

/-- The collection loop body of `process_all`. -/
def processColl (oracle : String → Nat → Except String (List Nat))
    (dest_root : List String) (st : St) (coll : JVal) : St :=
  let cn := get_collection_name coll
  if cn = "" then st
  else
    let coll_folder := sanitize_folderS cn
    (get_subcollection_list coll).foldl (processSub oracle dest_root cn coll_folder) st

/-- Embeds `process_all` from `downloadTextures.py`: walks the catalog and
downloads each variation image, returning
(downloaded, skipped, failed, errors) — here inside `St`, together with the
final filesystem and event trace. -/
def process_all (oracle : String → Nat → Except String (List Nat))
    (data : List JVal) (dest_root : List String) (fs0 : FS) : St :=
  data.foldl (processColl oracle dest_root) ⟨0, 0, 0, [], fs0, []⟩

end DownloadTextures

/-! ## Character-class facts -/

theorem pyIsSpace_lowerAscii (c : Char) : pyIsSpace (lowerAscii c) = pyIsSpace c := by
  unfold lowerAscii
  split <;> rfl

theorem isSep_of_space {c : Char} (h : pyIsSpace c = true) : isSep c = true := by
  simp [isSep, h]

/-! ## Run-collapsing lemmas -/

/-- Whether the scan state at the end of `l` (started in state `b`) is "inside
a run of `p`-characters". -/
def lastRun (p : Char → Bool) : Bool → List Char → Bool
  | b, [] => b
  | _, d :: t => lastRun p (p d) t

theorem runsAux_append_one (p : Char → Bool) (rep c : Char) (hc : p c = true)
    (m : List Char) : ∀ b : Bool,
    runsAux p rep b (m ++ [c]) =
      runsAux p rep b m ++ (if lastRun p b m then [] else [rep]) := by
  induction m with
  | nil => intro b; cases b <;> simp [runsAux, hc, lastRun]
  | cons d t ih =>
    intro b
    cases hd : p d <;> cases b <;> simp [runsAux, hd, lastRun, ih]

/-- The inner `dropWhile`-normalised state-irrelevance for the underscore
collapser. -/
theorem dropWhile_runsAux_uscore (z : List Char) :
    (runsAux uscore '_' true z).dropWhile uscore =
      (runsAux uscore '_' false z).dropWhile uscore := by
  cases z with
  | nil => rfl
  | cons d t =>
    cases hd : uscore d
    · simp [runsAux, hd]
    · have hd' : d = '_' := by simpa [uscore] using hd
      subst hd'
      simp [runsAux, List.dropWhile, uscore]

/-- The slug pipeline after lowercasing: separator runs to `_`, delete
non-`[a-z0-9_]`, collapse `_` runs, strip `_` — everything of `slugify`
except the initial trim, the lowercasing, and the `"unnamed"` default. -/
def slugCore (t : List Char) : List Char :=
  stripBy uscore (runs uscore '_' ((runs isSep '_' t).filter isSlugKeep))

theorem slugify_eq_core (l : List Char) :
    slugify l =
      (if (slugCore ((stripBy pyIsSpace l).map lowerAscii)).isEmpty then "unnamed".data
       else slugCore ((stripBy pyIsSpace l).map lowerAscii)) := rfl

theorem spec_eq_core (l : List Char) :
    slugify_for_directories_spec l =
      (if (slugCore (l.map lowerAscii)).isEmpty then "unnamed".data
       else slugCore (l.map lowerAscii)) := rfl

/-- A leading separator character does not change the slug core. -/
theorem slugCore_cons_sep {c : Char} (hc : isSep c = true) (m : List Char) :
    slugCore (c :: m) = slugCore m := by
  cases m with
  | nil => simp [slugCore, runs, runsAux, hc, stripBy, List.dropWhile, dropTrail]
  | cons d t =>
    by_cases hd : isSep d = true
    · simp [slugCore, runs, runsAux, hc, hd]
    · have hbd : isSep d = false := by simpa using hd
      simp only [slugCore, runs, runsAux, hc, hbd, if_true, if_false, ite_true, ite_false,
        Bool.false_eq_true]
      have hu : isSlugKeep '_' = true := by decide
      simp only [List.filter, hu]
      simp only [stripBy]
      congr 1
      have : uscore '_' = true := rfl
      simp only [runsAux, this, if_true, List.dropWhile, ite_true]
      exact dropWhile_runsAux_uscore _

theorem dropWhile_append_of_eq_nil {p : Char → Bool} :
    ∀ {a : List Char} (b : List Char), a.dropWhile p = [] →
      (a ++ b).dropWhile p = b.dropWhile p := by
  intro a
  induction a with
  | nil => intro b _; rfl
  | cons d t ih =>
    intro b h
    cases hd : p d
    · simp [List.dropWhile, hd] at h
    · simp only [List.cons_append, List.dropWhile, hd]
      exact ih b (by simpa [List.dropWhile, hd] using h)

theorem dropWhile_append_of_ne_nil {p : Char → Bool} :
    ∀ {a : List Char} (b : List Char), a.dropWhile p ≠ [] →
      (a ++ b).dropWhile p = a.dropWhile p ++ b := by
  intro a
  induction a with
  | nil => intro b h; exact absurd rfl h
  | cons d t ih =>
    intro b h
    cases hd : p d
    · simp [List.dropWhile, hd]
    · simp only [List.cons_append, List.dropWhile, hd]
      exact ih b (by simpa [List.dropWhile, hd] using h)

theorem dropTrail_append_one {p : Char → Bool} {c : Char} (hc : p c = true)
    (x : List Char) : dropTrail p (x ++ [c]) = dropTrail p x := by
  simp [dropTrail, List.dropWhile, hc]

theorem dropTrail_append_keep {p : Char → Bool} {c : Char} (hc : p c = false)
    (x : List Char) : dropTrail p (x ++ [c]) = x ++ [c] := by
  simp [dropTrail, List.dropWhile, hc]

/-- Appending a trailing `'_'` does not change collapse-then-strip. -/
theorem stripU_runsU_append_one (y : List Char) :
    stripBy uscore (runs uscore '_' (y ++ ['_'])) =
      stripBy uscore (runs uscore '_' y) := by
  rw [runs, runs, runsAux_append_one uscore '_' '_' rfl y false]
  cases hl : lastRun uscore false y
  · simp only [hl, if_false, Bool.false_eq_true]
    by_cases he : (runsAux uscore '_' false y).dropWhile uscore = []
    · unfold stripBy
      rw [dropWhile_append_of_eq_nil _ he, he]
      rfl
    · unfold stripBy
      rw [dropWhile_append_of_ne_nil _ he, dropTrail_append_one rfl]
  · simp [hl]

/-- A trailing separator character does not change the slug core. -/
theorem slugCore_append_sep {c : Char} (hc : isSep c = true) (m : List Char) :
    slugCore (m ++ [c]) = slugCore m := by
  unfold slugCore
  simp only [runs]
  rw [runsAux_append_one isSep '_' c hc m false]
  cases hl : lastRun isSep false m
  · simp only [hl, if_false, Bool.false_eq_true]
    rw [List.filter_append]
    have h2 : List.filter isSlugKeep ['_'] = ['_'] := rfl
    rw [h2]
    have h3 := stripU_runsU_append_one (List.filter isSlugKeep (runsAux isSep '_' false m))
    simpa [runs] using h3
  · simp [hl]

/-- The slug core ignores trailing Python whitespace. -/
theorem slugCore_dropTrail_space (m : List Char) :
    slugCore (dropTrail pyIsSpace m) = slugCore m := by
  induction m using List.reverseRecOn with
  | nil => rfl
  | append_singleton l a ih =>
    cases ha : pyIsSpace a
    · rw [dropTrail_append_keep ha]
    · rw [dropTrail_append_one ha, ih, slugCore_append_sep (isSep_of_space ha)]

/-- The slug core ignores leading Python whitespace. -/
theorem slugCore_dropWhile_space (m : List Char) :
    slugCore (m.dropWhile pyIsSpace) = slugCore m := by
  induction m with
  | nil => rfl
  | cons d t ih =>
    cases hd : pyIsSpace d
    · simp [List.dropWhile, hd]
    · simp only [List.dropWhile, hd]
      rw [ih, slugCore_cons_sep (isSep_of_space hd)]

theorem slugCore_stripBy_space (m : List Char) :
    slugCore (stripBy pyIsSpace m) = slugCore m := by
  unfold stripBy
  rw [slugCore_dropTrail_space, slugCore_dropWhile_space]

theorem stripBy_space_map_lower (l : List Char) :
    (stripBy pyIsSpace l).map lowerAscii = stripBy pyIsSpace (l.map lowerAscii) := by
  have hcomp : (pyIsSpace ∘ lowerAscii) = pyIsSpace := funext pyIsSpace_lowerAscii
  simp [stripBy, dropTrail, List.dropWhile_map, ← List.map_reverse, hcomp]

/-- Claim C7. For every input string, `slugify` from `create-folders.py` equals
the spec's `slugify_for_directories` pipeline (lowercase; replace runs of
whitespace and path separators with `_`; delete every character outside
`[a-z0-9_]`; collapse repeated `_`; trim leading/trailing `_`; `"unnamed"`
when empty) — the code's extra initial `str.strip()` is absorbed by the later
steps — and in particular `slugify("Modern/Silk") = "modern_silk"`. -/
theorem claim_C7_slugify_matches_spec :
    (∀ l : List Char, slugify l = slugify_for_directories_spec l) ∧
    slugifyS "Modern/Silk" = "modern_silk" := by
  constructor
  · intro l
    rw [slugify_eq_core, spec_eq_core, stripBy_space_map_lower, slugCore_stripBy_space]
  · decide

/-! ## Idempotence machinery for `slugify` (C9) -/

/-- No two adjacent characters of the list both satisfy `p`. -/
def noAdj (p : Char → Bool) : List Char → Bool
  | [] => true
  | [_] => true
  | c :: d :: t => (!(p c && p d)) && noAdj p (d :: t)

/-- The first character (if any) does not satisfy `p`. -/
def headNotP (p : Char → Bool) : List Char → Prop
  | [] => True
  | c :: _ => p c = false

theorem noAdj_cons_cons {p : Char → Bool} (c d : Char) (t : List Char) :
    noAdj p (c :: d :: t) = ((!(p c && p d)) && noAdj p (d :: t)) := rfl

theorem noAdj_tail {p : Char → Bool} {c : Char} {l : List Char}
    (h : noAdj p (c :: l) = true) : noAdj p l = true := by
  cases l with
  | nil => rfl
  | cons d t =>
    rw [noAdj_cons_cons, Bool.and_eq_true] at h
    exact h.2

theorem noAdj_head_pair {p : Char → Bool} {c d : Char} {t : List Char}
    (h : noAdj p (c :: d :: t) = true) (hc : p c = true) : p d = false := by
  rw [noAdj_cons_cons, Bool.and_eq_true] at h
  have h1 := h.1
  cases hd : p d
  · rfl
  · rw [hc, hd] at h1
    exact absurd h1 (by decide)

theorem noAdj_cons_of {p : Char → Bool} {c : Char} {l : List Char}
    (h : p c = false ∨ headNotP p l) (hl : noAdj p l = true) :
    noAdj p (c :: l) = true := by
  cases l with
  | nil => rfl
  | cons d t =>
    rw [noAdj_cons_cons, Bool.and_eq_true]
    refine ⟨?_, hl⟩
    rcases h with h | h
    · simp [h]
    · have hd : p d = false := h
      simp [hd]

theorem runsAux_eq_self {p : Char → Bool} {rep : Char} :
    ∀ {l : List Char}, (∀ c ∈ l, p c = false) → ∀ b, runsAux p rep b l = l := by
  intro l
  induction l with
  | nil => intro _ b; rfl
  | cons c cs ih =>
    intro h b
    have hc : p c = false := h c (by simp)
    simp [runsAux, hc, ih (fun d hd => h d (by simp [hd]))]

/-- The run-collapser is the identity on lists without adjacent `p`-characters,
when every `p`-character is the replacement character itself. -/
theorem runsAux_id_of_noAdj {p : Char → Bool} {rep : Char}
    (hpr : ∀ c, p c = true → c = rep) :
    ∀ (l : List Char) (b : Bool), noAdj p l = true → (b = true → headNotP p l) →
      runsAux p rep b l = l := by
  intro l
  induction l with
  | nil => intro b _ _; rfl
  | cons c cs ih =>
    intro b hadj hb
    cases hc : p c
    · simp [runsAux, hc, ih false (noAdj_tail hadj) (by simp)]
    · cases b
      · have hcr : c = rep := hpr c hc
        subst hcr
        have hguard : headNotP p cs := by
          cases cs with
          | nil => trivial
          | cons d t => exact noAdj_head_pair hadj hc
        simp [runsAux, hc, ih true (noAdj_tail hadj) (fun _ => hguard)]
      · have := hb rfl
        simp [headNotP, hc] at this

theorem mem_runsAux {p : Char → Bool} {rep : Char} :
    ∀ {l : List Char} {b : Bool} {c : Char}, c ∈ runsAux p rep b l →
      c = rep ∨ c ∈ l := by
  intro l
  induction l with
  | nil => intro b c h; simp [runsAux] at h
  | cons d t ih =>
    intro b c h
    cases hd : p d
    · simp [runsAux, hd] at h
      rcases h with h | h
      · exact Or.inr (by simp [h])
      · rcases ih h with h' | h'
        · exact Or.inl h'
        · exact Or.inr (by simp [h'])
    · cases b
      · simp [runsAux, hd] at h
        rcases h with h | h
        · exact Or.inl h
        · rcases ih h with h' | h'
          · exact Or.inl h'
          · exact Or.inr (by simp [h'])
      · simp [runsAux, hd] at h
        rcases ih h with h' | h'
        · exact Or.inl h'
        · exact Or.inr (by simp [h'])

theorem headNotP_runsAux_true {p : Char → Bool} {rep : Char} :
    ∀ l : List Char, headNotP p (runsAux p rep true l) := by
  intro l
  induction l with
  | nil => trivial
  | cons c cs ih =>
    cases hc : p c
    · simp [runsAux, hc, headNotP]
    · simpa [runsAux, hc] using ih

theorem noAdj_runsAux {p : Char → Bool} {rep : Char} :
    ∀ (l : List Char) (b : Bool), noAdj p (runsAux p rep b l) = true := by
  intro l
  induction l with
  | nil => intro b; rfl
  | cons c cs ih =>
    intro b
    cases hc : p c
    · simpa [runsAux, hc] using noAdj_cons_of (Or.inl hc) (ih false)
    · cases b
      · have h1 : noAdj p (rep :: runsAux p rep true cs) = true :=
          noAdj_cons_of (Or.inr (headNotP_runsAux_true cs)) (ih true)
        simpa [runsAux, hc] using h1
      · simpa [runsAux, hc] using ih true

theorem noAdj_dropWhile {p q : Char → Bool} :
    ∀ {l : List Char}, noAdj p l = true → noAdj p (l.dropWhile q) = true := by
  intro l
  induction l with
  | nil => intro h; exact h
  | cons c cs ih =>
    intro h
    cases hc : q c
    · simpa [List.dropWhile, hc] using h
    · simpa [List.dropWhile, hc] using ih (noAdj_tail h)

theorem noAdj_append_left {p : Char → Bool} :
    ∀ (a b : List Char), noAdj p (a ++ b) = true → noAdj p a = true := by
  intro a
  induction a with
  | nil => intro b _; rfl
  | cons c t ih =>
    intro b h
    cases t with
    | nil => rfl
    | cons d t' =>
      have hpair : (!(p c && p d)) = true := by
        have h' := h
        rw [List.cons_append, List.cons_append, noAdj_cons_cons, Bool.and_eq_true] at h'
        exact h'.1
      have h2 : noAdj p (d :: t') = true := ih b (noAdj_tail h)
      rw [noAdj_cons_cons, Bool.and_eq_true]
      exact ⟨hpair, h2⟩

/-! ## Characterisation of `slugify` output (C9) -/

theorem uscore_eq_iff {c : Char} : uscore c = true ↔ c = '_' := by
  simp [uscore]

theorem keep_lowerAscii {c : Char} (h : isSlugKeep c = true) : lowerAscii c = c := by
  have hm : c ∈ slugChars := by simpa [isSlugKeep] using h
  fin_cases hm <;> rfl

theorem keep_not_space {c : Char} (h : isSlugKeep c = true) : pyIsSpace c = false := by
  have hm : c ∈ slugChars := by simpa [isSlugKeep] using h
  fin_cases hm <;> rfl

theorem keep_not_sep {c : Char} (h : isSlugKeep c = true) : isSep c = false := by
  have hm : c ∈ slugChars := by simpa [isSlugKeep] using h
  fin_cases hm <;> rfl

theorem dropWhile_eq_self_of_all {p : Char → Bool} :
    ∀ {l : List Char}, (∀ c ∈ l, p c = false) → l.dropWhile p = l := by
  intro l
  induction l with
  | nil => intro _; rfl
  | cons c t ih =>
    intro h
    simp [List.dropWhile, h c (by simp)]

theorem stripBy_eq_self_of_all {p : Char → Bool} {l : List Char}
    (h : ∀ c ∈ l, p c = false) : stripBy p l = l := by
  unfold stripBy dropTrail
  rw [dropWhile_eq_self_of_all h, dropWhile_eq_self_of_all (fun c hc => h c (by simpa using hc)),
    List.reverse_reverse]

theorem map_id_of_all {f : Char → Char} :
    ∀ {l : List Char}, (∀ c ∈ l, f c = c) → l.map f = l := by
  intro l
  induction l with
  | nil => intro _; rfl
  | cons c t ih =>
    intro h
    simp [h c (by simp), ih (fun d hd => h d (by simp [hd]))]

theorem dropWhile_eq_self_of_headNot {p : Char → Bool} {l : List Char}
    (h : ∀ c, l.head? = some c → p c = false) : l.dropWhile p = l := by
  cases l with
  | nil => rfl
  | cons c t => simp [List.dropWhile, h c rfl]

theorem head?_dropWhile_false {p : Char → Bool} :
    ∀ {l : List Char} {c : Char}, (l.dropWhile p).head? = some c → p c = false := by
  intro l
  induction l with
  | nil => intro c h; simp at h
  | cons d t ih =>
    intro c h
    cases hd : p d
    · simp [List.dropWhile, hd] at h
      rw [← h]; exact hd
    · rw [List.dropWhile, hd] at h
      exact ih (by simpa using h)

/-- Applying `dropTrail` yields a prefix whose dropped complement is all-`p`. -/
theorem dropTrail_prefix_ex (p : Char → Bool) (l : List Char) :
    ∃ s, l = dropTrail p l ++ s ∧ ∀ c ∈ s, p c = true := by
  refine ⟨(l.reverse.takeWhile p).reverse, ?_, ?_⟩
  · rw [dropTrail, ← List.reverse_append, List.takeWhile_append_dropWhile, List.reverse_reverse]
  · intro c hc
    exact List.mem_takeWhile_imp (by simpa using hc)

theorem head?_append_left {a b : List Char} (h : a ≠ []) :
    (a ++ b).head? = a.head? := by
  cases a with
  | nil => exact absurd rfl h
  | cons c t => rfl

/-- Normal form of slug strings: non-empty, only `[a-z0-9_]`, no `__`,
no leading or trailing `_`. -/
def GoodSlug (l : List Char) : Prop :=
  l ≠ [] ∧ (∀ c ∈ l, isSlugKeep c = true) ∧ noAdj uscore l = true ∧
    l.head? ≠ some '_' ∧ l.getLast? ≠ some '_'

/-- The function `slugify` is the identity on slug-normal strings. -/
theorem slugify_eq_self_of_good {l : List Char} (h : GoodSlug l) : slugify l = l := by
  obtain ⟨hne, hkeep, hadj, hhead, hlast⟩ := h
  have h1 : stripBy pyIsSpace l = l :=
    stripBy_eq_self_of_all (fun c hc => keep_not_space (hkeep c hc))
  have h2 : l.map lowerAscii = l :=
    map_id_of_all (fun c hc => keep_lowerAscii (hkeep c hc))
  have h3 : runs isSep '_' l = l :=
    runsAux_eq_self (fun c hc => keep_not_sep (hkeep c hc)) false
  have h4 : l.filter isSlugKeep = l := List.filter_eq_self.mpr hkeep
  have h5 : runs uscore '_' l = l :=
    runsAux_id_of_noAdj (fun c hc => uscore_eq_iff.mp hc) l false hadj (by simp)
  have h6 : stripBy uscore l = l := by
    have ha : l.dropWhile uscore = l := dropWhile_eq_self_of_headNot (fun c hc => by
      cases hu : uscore c
      · rfl
      · exfalso; apply hhead; rw [← uscore_eq_iff.mp hu]; exact hc)
    have hb : l.reverse.dropWhile uscore = l.reverse := dropWhile_eq_self_of_headNot (fun c hc => by
      cases hu : uscore c
      · rfl
      · exfalso; apply hlast
        rw [← uscore_eq_iff.mp hu, ← List.head?_reverse]; exact hc)
    unfold stripBy dropTrail
    rw [ha, hb, List.reverse_reverse]
  show (if (stripBy uscore (runs uscore '_'
      ((runs isSep '_' ((stripBy pyIsSpace l).map lowerAscii)).filter isSlugKeep))).isEmpty
    then "unnamed".data
    else stripBy uscore (runs uscore '_'
      ((runs isSep '_' ((stripBy pyIsSpace l).map lowerAscii)).filter isSlugKeep))) = l
  rw [h1, h2, h3, h4, h5, h6]
  simp [hne]

/-- The output of `slugify` is always in slug-normal form. -/
theorem good_slugify (l : List Char) : GoodSlug (slugify l) := by
  by_cases he : (stripBy uscore (runs uscore '_'
      ((runs isSep '_' ((stripBy pyIsSpace l).map lowerAscii)).filter isSlugKeep))).isEmpty
  · have : slugify l = "unnamed".data := by
      show (if (stripBy uscore _).isEmpty then "unnamed".data else _) = _
      rw [if_pos he]
    rw [this]
    exact ⟨by decide, by decide, by decide, by decide, by decide⟩
  · set t3 := (runs isSep '_' ((stripBy pyIsSpace l).map lowerAscii)).filter isSlugKeep with ht3
    set t4 := runs uscore '_' t3 with ht4
    set t5 := stripBy uscore t4 with ht5
    have hslug : slugify l = t5 := by
      show (if (stripBy uscore _).isEmpty then "unnamed".data else _) = _
      rw [if_neg he]
    rw [hslug]
    have hne : t5 ≠ [] := by
      intro hnil
      exact he (by simp [← ht5, hnil])
    obtain ⟨s, hsplit, hs⟩ := dropTrail_prefix_ex uscore (t4.dropWhile uscore)
    have ht5pfx : t4.dropWhile uscore = t5 ++ s := by
      rw [ht5]; exact hsplit
    refine ⟨hne, ?_, ?_, ?_, ?_⟩
    · intro c hc
      have hc4 : c ∈ t4 := by
        have hcd : c ∈ t4.dropWhile uscore := by
          rw [ht5pfx]; exact List.mem_append_left s hc
        exact (List.dropWhile_sublist uscore).mem hcd
      rcases mem_runsAux hc4 with h' | h'
      · rw [h']; decide
      · exact List.of_mem_filter h'
    · have hadj4 : noAdj uscore t4 = true := noAdj_runsAux t3 false
      have hadjd : noAdj uscore (t4.dropWhile uscore) = true := noAdj_dropWhile hadj4
      rw [ht5pfx] at hadjd
      exact noAdj_append_left t5 s hadjd
    · intro hh
      have : t5.head? = (t4.dropWhile uscore).head? := by
        rw [ht5pfx, head?_append_left hne]
      rw [hh] at this
      have := head?_dropWhile_false this.symm
      simp [uscore] at this
    · intro hh
      have hrev : t5.reverse = (t4.dropWhile uscore).reverse.dropWhile uscore := by
        rw [ht5]
        show (stripBy uscore t4).reverse = _
        unfold stripBy dropTrail
        rw [List.reverse_reverse]
      have hh' : t5.reverse.head? = some '_' := by rw [List.head?_reverse, hh]
      rw [hrev] at hh'
      have hfalse := head?_dropWhile_false hh'
      simp [uscore] at hfalse

/-- Claim C9. The directory slug function is idempotent:
`slugify_for_directories(slugify_for_directories(s)) = slugify_for_directories(s)`
for every string `s`. -/
theorem claim_C9_slugify_idempotent :
    (∀ l : List Char, slugify (slugify l) = slugify l) ∧
    ∀ s : String, slugifyS (slugifyS s) = slugifyS s := by
  constructor
  · intro l
    exact slugify_eq_self_of_good (good_slugify l)
  · intro s
    show String.mk (slugify (String.mk (slugify s.data)).data) = String.mk (slugify s.data)
    exact congrArg String.mk (slugify_eq_self_of_good (good_slugify s.data))

/-! ## Token sanitizer properties (C8) -/

theorem hyph_eq_iff {c : Char} : hyph c = true ↔ c = '-' := by
  simp [hyph]

theorem tokKeep_upper_out {c : Char} (h : isTokKeep c = true) :
    isTokOut (upperAscii c) = true := by
  have hm : c ∈ tokChars := by simpa [isTokKeep] using h
  fin_cases hm <;> rfl

theorem upperAscii_hyph {c : Char} : (upperAscii c = '-') ↔ (c = '-') := by
  unfold upperAscii
  split
  all_goals first | rfl | decide

theorem mem_dropTrail {p : Char → Bool} {l : List Char} {c : Char}
    (h : c ∈ dropTrail p l) : c ∈ l := by
  unfold dropTrail at h
  rw [List.mem_reverse] at h
  exact List.mem_reverse.mp ((List.dropWhile_sublist p).mem h)

theorem mem_stripBy {p : Char → Bool} {l : List Char} {c : Char}
    (h : c ∈ stripBy p l) : c ∈ l := by
  unfold stripBy at h
  exact (List.dropWhile_sublist p).mem (mem_dropTrail h)

theorem stripBy_reverse_eq {p : Char → Bool} (l : List Char) :
    (stripBy p l).reverse = (l.dropWhile p).reverse.dropWhile p := by
  unfold stripBy dropTrail
  rw [List.reverse_reverse]

/-- Claim C8. `sanitize_token` from `create_materials.py` equals the spec's
`tokenize_for_asset_name` pipeline (strip accents — kept abstract as `sa` —
trim, spaces to `-`, delete outside `[A-Za-z0-9-]`, collapse `-`, trim `-`,
uppercase); its output contains only `[A-Z0-9-]` and never starts or ends
with `-`; and `tokenize_for_asset_name("Modern Silk") = "MODERN-SILK"`. -/
theorem claim_C8_tokenize :
    (∀ (sa : List Char → List Char) (l : List Char),
        sanitize_token sa l = tokenize_for_asset_name_spec sa l) ∧
    (∀ (sa : List Char → List Char) (l : List Char) (c : Char),
        c ∈ sanitize_token sa l → isTokOut c = true) ∧
    (∀ (sa : List Char → List Char) (l : List Char),
        (sanitize_token sa l).head? ≠ some '-' ∧
        (sanitize_token sa l).getLast? ≠ some '-') ∧
    sanitize_tokenS (fun x => x) "Modern Silk" = "MODERN-SILK" := by
  refine ⟨fun _ _ => rfl, ?_, ?_, by decide⟩
  · intro sa l c hc
    rw [show sanitize_token sa l =
        (stripBy hyph (runs hyph '-'
          ((((stripBy pyIsSpace (sa l)).map (fun c => if c == ' ' then '-' else c))).filter
            isTokKeep))).map upperAscii from rfl] at hc
    rw [List.mem_map] at hc
    obtain ⟨d, hd, hdc⟩ := hc
    have hd3 := mem_stripBy hd
    rcases mem_runsAux hd3 with h' | h'
    · rw [← hdc, h']; rfl
    · exact hdc ▸ tokKeep_upper_out (List.of_mem_filter h')
  · intro sa l
    constructor
    · intro hh
      rw [show sanitize_token sa l =
          (stripBy hyph (runs hyph '-'
            ((((stripBy pyIsSpace (sa l)).map (fun c => if c == ' ' then '-' else c))).filter
              isTokKeep))).map upperAscii from rfl] at hh
      rw [List.head?_map] at hh
      set t3 := runs hyph '-'
        ((((stripBy pyIsSpace (sa l)).map (fun c => if c == ' ' then '-' else c))).filter
          isTokKeep) with ht3
      cases he : (stripBy hyph t3).head? with
      | none => rw [he] at hh; simp at hh
      | some d =>
        rw [he] at hh
        have hdh : upperAscii d = '-' := by simpa using hh
        have hd : d = '-' := upperAscii_hyph.mp hdh
        have hne : stripBy hyph t3 ≠ [] := by
          intro h0; rw [h0] at he; simp at he
        obtain ⟨s, hsplit, _⟩ := dropTrail_prefix_ex hyph (t3.dropWhile hyph)
        have hpfx : t3.dropWhile hyph = stripBy hyph t3 ++ s := hsplit
        have hheq : (stripBy hyph t3).head? = (t3.dropWhile hyph).head? := by
          rw [hpfx, head?_append_left hne]
        rw [he] at hheq
        have := head?_dropWhile_false hheq.symm
        rw [hd] at this
        simp [hyph] at this
    · intro hh
      rw [show sanitize_token sa l =
          (stripBy hyph (runs hyph '-'
            ((((stripBy pyIsSpace (sa l)).map (fun c => if c == ' ' then '-' else c))).filter
              isTokKeep))).map upperAscii from rfl] at hh
      rw [List.getLast?_map] at hh
      set t3 := runs hyph '-'
        ((((stripBy pyIsSpace (sa l)).map (fun c => if c == ' ' then '-' else c))).filter
          isTokKeep) with ht3
      cases he : (stripBy hyph t3).getLast? with
      | none => rw [he] at hh; simp at hh
      | some d =>
        rw [he] at hh
        have hdh : upperAscii d = '-' := by simpa using hh
        have hd : d = '-' := upperAscii_hyph.mp hdh
        have hrev : (stripBy hyph t3).reverse.head? = some d := by
          rw [List.head?_reverse, he]
        rw [stripBy_reverse_eq] at hrev
        have := head?_dropWhile_false hrev
        rw [hd] at this
        simp [hyph] at this

/-! ## Fetch-engine semantics (C4, C5, C6, C10) -/

namespace DownloadTextures

theorem lookup_setF_eq (files : List (List String × List Nat)) (p : List String)
    (d : List Nat) : lookupF (setF files p d) p = some d := by
  simp [setF, lookupF]

theorem lookup_removeF_ne (q : List String) :
    ∀ (files : List (List String × List Nat)) (p : List String), p ≠ q →
      lookupF (removeF files p) q = lookupF files q := by
  intro files
  induction files with
  | nil => intro p _; rfl
  | cons e t ih =>
    intro p hpq
    obtain ⟨r, d⟩ := e
    by_cases hr : r = p
    · have h1 : removeF ((r, d) :: t) p = removeF t p := by simp [removeF, hr]
      have hrq : lookupF ((r, d) :: t) q = lookupF t q := by
        have : ¬ r = q := by rw [hr]; exact hpq
        simp [lookupF, this]
      rw [h1, ih p hpq, hrq]
    · have h1 : removeF ((r, d) :: t) p = (r, d) :: removeF t p := by simp [removeF, hr]
      rw [h1]
      show (if r = q then some d else lookupF (removeF t p) q) =
        (if r = q then some d else lookupF t q)
      by_cases hq : r = q
      · simp [hq]
      · simp [hq, ih p hpq]

theorem lookup_setF_ne (files : List (List String × List Nat)) {p q : List String}
    (d : List Nat) (h : p ≠ q) : lookupF (setF files p d) q = lookupF files q := by
  simp [setF, lookupF, h, lookup_removeF_ne q files p h]

/-- Which destination paths an event can create, modify or remove. -/
def touches (e : Ev) (dest : List String) : Prop :=
  match e with
  | .create p => p = dest
  | .append p _ => p = dest
  | .rename src dst => src = dest ∨ dst = dest
  | _ => False

theorem lookup_applyEv_of_not_touches (fs : FS) (e : Ev) (dest : List String)
    (h : ¬ touches e dest) :
    lookupF (applyEv fs e).files dest = lookupF fs.files dest := by
  cases e with
  | fetch u k => rfl
  | sleep q => rfl
  | mkdirp d => rfl
  | create p =>
    have hp : p ≠ dest := h
    by_cases hdir : dirOk fs p.dropLast
    · have ha : applyEv fs (.create p) = { fs with files := setF fs.files p [] } := by
        simp only [applyEv]; rw [if_pos hdir]
      rw [ha]
      exact lookup_setF_ne fs.files [] hp
    · have ha : applyEv fs (.create p) = fs := by
        simp only [applyEv]; rw [if_neg hdir]
      rw [ha]
  | append p b =>
    have hp : p ≠ dest := h
    cases hl : lookupF fs.files p with
    | none =>
      have ha : applyEv fs (.append p b) = fs := by
        simp only [applyEv]; rw [hl]
      rw [ha]
    | some d =>
      have ha : applyEv fs (.append p b) =
          { fs with files := setF fs.files p (d ++ [b]) } := by
        simp only [applyEv]; rw [hl]
      rw [ha]
      exact lookup_setF_ne fs.files _ hp
  | rename src dst =>
    have hs : src ≠ dest := fun hh => h (Or.inl hh)
    have hd : dst ≠ dest := fun hh => h (Or.inr hh)
    cases hl : lookupF fs.files src with
    | none =>
      have ha : applyEv fs (.rename src dst) = fs := by
        simp only [applyEv]; rw [hl]
      rw [ha]
    | some d =>
      have ha : applyEv fs (.rename src dst) =
          { fs with files := setF (removeF fs.files src) dst d } := by
        simp only [applyEv]; rw [hl]
      rw [ha]
      show lookupF (setF (removeF fs.files src) dst d) dest = _
      rw [lookup_setF_ne _ _ hd, lookup_removeF_ne dest fs.files src hs]

theorem lookup_runEvs_of_not_touches (dest : List String) :
    ∀ (evs : List Ev) (fs : FS), (∀ e ∈ evs, ¬ touches e dest) →
      lookupF (runEvs fs evs).files dest = lookupF fs.files dest := by
  intro evs
  induction evs with
  | nil => intro fs _; rfl
  | cons e t ih =>
    intro fs h
    show lookupF (runEvs (applyEv fs e) t).files dest = _
    rw [ih (applyEv fs e) (fun x hx => h x (by simp [hx])),
      lookup_applyEv_of_not_touches fs e dest (h e (by simp))]

/-- The `fetch` and `sleep` events leave the filesystem untouched. -/
theorem runEvs_fetch_sleep_id :
    ∀ (evs : List Ev) (fs : FS),
      (∀ e ∈ evs, (∃ u k, e = .fetch u k) ∨ (∃ q, e = .sleep q)) →
      runEvs fs evs = fs := by
  intro evs
  induction evs with
  | nil => intro fs _; rfl
  | cons e t ih =>
    intro fs h
    have he : applyEv fs e = fs := by
      rcases h e (by simp) with ⟨u, k, rfl⟩ | ⟨q, rfl⟩ <;> rfl
    show runEvs (applyEv fs e) t = fs
    rw [he, ih fs (fun x hx => h x (by simp [hx]))]

theorem tmpPath_dropLast (dest : List String) :
    (tmpPath dest).dropLast = dest.dropLast := by
  simp [tmpPath]

theorem tmpPath_ne {dest : List String} (h : dest ≠ []) : tmpPath dest ≠ dest := by
  intro heq
  have h2 : (tmpPath dest).getLast? = some ((dest.getLast?.getD "") ++ ".part") := by
    rw [tmpPath]; exact List.getLast?_concat _
  rw [heq, List.getLast?_eq_getLast dest h] at h2
  have h3 : dest.getLast h = (dest.getLast h) ++ ".part" := by simpa using h2
  have hlen := congrArg String.length h3
  rw [String.length_append] at hlen
  have h5 : (".part" : String).length = 5 := rfl
  omega

theorem mem_ancestors_self {d : List String} (h : d ≠ []) :
    d ∈ CreateFolders.ancestors d := by
  have hl : 0 < d.length := List.length_pos.mpr h
  refine List.mem_map.mpr ⟨d.length - 1, List.mem_range.mpr (by omega), ?_⟩
  rw [Nat.sub_add_cancel hl]
  exact List.take_length d

theorem lookup_runEvs_append_bytes (t : List String) :
    ∀ (data : List Nat) (fs : FS) (acc : List Nat),
      lookupF fs.files t = some acc →
      lookupF (runEvs fs (data.map (Ev.append t))).files t = some (acc ++ data) := by
  intro data
  induction data with
  | nil => intro fs acc h; simpa using h
  | cons b bs ih =>
    intro fs acc h
    show lookupF (runEvs (applyEv fs (.append t b)) (bs.map (Ev.append t))).files t = _
    have happ : applyEv fs (.append t b) = { fs with files := setF fs.files t (acc ++ [b]) } := by
      simp only [applyEv]
      rw [h]
    rw [happ, ih _ (acc ++ [b]) (lookup_setF_eq _ _ _)]
    simp

/-- Running the events of one successful attempt writes the response bytes to
the destination, from any starting filesystem (the engine creates the parent
directories itself). -/
theorem lookup_runEvs_successEvs (url : String) (a : Nat) {dest : List String}
    (data : List Nat) (fs : FS) (hne : dest ≠ []) :
    lookupF (runEvs fs (successEvs url a dest data)).files dest = some data := by
  unfold successEvs
  show lookupF (runEvs (applyEv (applyEv (applyEv fs (.fetch url a)) (.mkdirp dest.dropLast))
    (.create (tmpPath dest))) (data.map (Ev.append (tmpPath dest)) ++ [.rename (tmpPath dest) dest])).files dest = some data
  have h1 : applyEv fs (.fetch url a) = fs := rfl
  rw [h1]
  set fs1 := applyEv fs (.mkdirp dest.dropLast) with hfs1
  have hdir : dirOk fs1 (tmpPath dest).dropLast := by
    rw [tmpPath_dropLast]
    by_cases hdl : dest.dropLast = []
    · exact Or.inl hdl
    · refine Or.inr ?_
      show dest.dropLast ∈ fs1.dirs
      rw [hfs1]
      show dest.dropLast ∈ CreateFolders.ancestors dest.dropLast ++ fs.dirs
      exact List.mem_append_left _ (mem_ancestors_self hdl)
  have h2 : applyEv fs1 (.create (tmpPath dest)) =
      { fs1 with files := setF fs1.files (tmpPath dest) [] } := by
    simp only [applyEv]
    rw [if_pos hdir]
  rw [h2]
  set fs2 : FS := { fs1 with files := setF fs1.files (tmpPath dest) [] } with hfs2
  rw [runEvs, List.foldl_append]
  show lookupF (applyEv (runEvs fs2 (data.map (Ev.append (tmpPath dest))))
    (.rename (tmpPath dest) dest)).files dest = some data
  have h3 : lookupF (runEvs fs2 (data.map (Ev.append (tmpPath dest)))).files (tmpPath dest) =
      some data := by
    have := lookup_runEvs_append_bytes (tmpPath dest) data fs2 []
      (by rw [hfs2]; exact lookup_setF_eq _ _ _)
    simpa using this
  have h4 : applyEv (runEvs fs2 (data.map (Ev.append (tmpPath dest))))
      (.rename (tmpPath dest) dest) =
      { runEvs fs2 (data.map (Ev.append (tmpPath dest))) with
        files := setF (removeF (runEvs fs2 (data.map (Ev.append (tmpPath dest)))).files
          (tmpPath dest)) dest data } := by
    simp only [applyEv]
    rw [h3]
  rw [h4]
  exact lookup_setF_eq _ _ _

end DownloadTextures

namespace DownloadTextures

/-- An event that is just a network request or a sleep. -/
def netOrSleep (url : String) (e : Ev) : Prop :=
  (∃ k, e = Ev.fetch url k) ∨ (∃ q, e = Ev.sleep q)

theorem netOrSleep_not_touches {url : String} {e : Ev} (h : netOrSleep url e)
    (dest : List String) : ¬ touches e dest := by
  rcases h with ⟨k, rfl⟩ | ⟨q, rfl⟩ <;> exact fun hh => hh

/-- If every remaining attempt fails, the loop returns failure and the trace
contains only fetches and sleeps (in particular no directory creation and no
write). -/
theorem dwrLoop_allfail (oracle : String → Nat → Except String (List Nat))
    (url : String) (dest : List String) (backoff : ℚ) :
    ∀ (as : List Nat) (le : Option String),
      (∀ a ∈ as, ∃ err, oracle url a = .error err) →
      (dwrLoop oracle url dest backoff as le).1.1 = false ∧
      ∀ e ∈ (dwrLoop oracle url dest backoff as le).2, netOrSleep url e := by
  intro as
  induction as with
  | nil => intro le _; exact ⟨rfl, by intro e he; simp [dwrLoop] at he⟩
  | cons a rest ih =>
    intro le hall
    obtain ⟨err, herr⟩ := hall a (by simp)
    have hrest := ih (some err) (fun x hx => hall x (by simp [hx]))
    have hunf : dwrLoop oracle url dest backoff (a :: rest) le =
        ((dwrLoop oracle url dest backoff rest (some err)).1,
         .fetch url a :: (if rest.isEmpty then (dwrLoop oracle url dest backoff rest (some err)).2
           else .sleep (backoff ^ a) :: (dwrLoop oracle url dest backoff rest (some err)).2)) := by
      simp only [dwrLoop]
      rw [herr]
    rw [hunf]
    refine ⟨hrest.1, ?_⟩
    intro e he
    simp only [List.mem_cons] at he
    rcases he with rfl | he
    · exact Or.inl ⟨a, rfl⟩
    · by_cases hre : rest.isEmpty
      · rw [if_pos hre] at he
        exact hrest.2 e he
      · rw [if_neg hre] at he
        simp only [List.mem_cons] at he
        rcases he with rfl | he
        · exact Or.inr ⟨backoff ^ a, rfl⟩
        · exact hrest.2 e he

/-- If the loop returns success, its trace is a prefix of fetches/sleeps
followed by the full success block of one attempt whose fetch succeeded. -/
theorem dwrLoop_ok_trace (oracle : String → Nat → Except String (List Nat))
    (url : String) (dest : List String) (backoff : ℚ) :
    ∀ (as : List Nat) (le : Option String),
      (dwrLoop oracle url dest backoff as le).1.1 = true →
      ∃ pre a data, oracle url a = .ok data ∧
        (dwrLoop oracle url dest backoff as le).2 = pre ++ successEvs url a dest data ∧
        ∀ e ∈ pre, netOrSleep url e := by
  intro as
  induction as with
  | nil => intro le h; simp [dwrLoop] at h
  | cons a rest ih =>
    intro le h
    cases ho : oracle url a with
    | ok data =>
      refine ⟨[], a, data, ho, ?_, by intro e he; simp at he⟩
      simp only [dwrLoop]
      rw [ho]
      rfl
    | error err =>
      have hunf : dwrLoop oracle url dest backoff (a :: rest) le =
          ((dwrLoop oracle url dest backoff rest (some err)).1,
           .fetch url a :: (if rest.isEmpty then (dwrLoop oracle url dest backoff rest (some err)).2
             else .sleep (backoff ^ a) :: (dwrLoop oracle url dest backoff rest (some err)).2)) := by
        simp only [dwrLoop]
        rw [ho]
      rw [hunf] at h ⊢
      obtain ⟨pre, a', data, hok, htr, hpre⟩ := ih (some err) h
      by_cases hre : rest.isEmpty
      · refine ⟨.fetch url a :: pre, a', data, hok, ?_, ?_⟩
        · simp only [if_pos hre, htr, List.cons_append]
        · intro e he
          simp only [List.mem_cons] at he
          rcases he with rfl | he
          · exact Or.inl ⟨a, rfl⟩
          · exact hpre e he
      · refine ⟨.fetch url a :: .sleep (backoff ^ a) :: pre, a', data, hok, ?_, ?_⟩
        · simp only [if_neg hre, htr, List.cons_append]
        · intro e he
          simp only [List.mem_cons] at he
          rcases he with rfl | he
          · exact Or.inl ⟨a, rfl⟩
          · rcases he with rfl | he
            · exact Or.inr ⟨backoff ^ a, rfl⟩
            · exact hpre e he

end DownloadTextures

namespace DownloadTextures

theorem successEvs_eq_concat (url : String) (a : Nat) (dest : List String)
    (data : List Nat) :
    successEvs url a dest data =
      (Ev.fetch url a :: Ev.mkdirp dest.dropLast :: Ev.create (tmpPath dest) ::
        data.map (Ev.append (tmpPath dest))) ++ [Ev.rename (tmpPath dest) dest] := by
  simp [successEvs]

theorem not_touches_dropLast_successEvs {url : String} {a : Nat} {dest : List String}
    {data : List Nat} (hne : dest ≠ []) :
    ∀ e ∈ (successEvs url a dest data).dropLast, ¬ touches e dest := by
  rw [successEvs_eq_concat, List.dropLast_concat]
  intro e he
  simp only [List.mem_cons] at he
  rcases he with rfl | he
  · exact fun hh => hh
  · rcases he with rfl | he
    · exact fun hh => hh
    · rcases he with rfl | he
      · exact fun hh => tmpPath_ne hne hh
      · obtain ⟨b, _, rfl⟩ := List.mem_map.mp he
        exact fun hh => tmpPath_ne hne hh

theorem successEvs_ne_nil (url : String) (a : Nat) (dest : List String)
    (data : List Nat) : successEvs url a dest data ≠ [] := by
  simp [successEvs]

/-- Claim C5. Atomic commit: on every successful fetch the trace is
(possible fetch/sleep retries, then) fetch, mkdir-parents, a full write of the
response bytes to the `.part` temporary sibling, and only then one rename onto
the destination.  Consequently, executing any proper prefix of the trace
(an interruption before completion) leaves the destination absent, while the
full trace makes the destination hold exactly the response bytes. -/
theorem claim_C5_atomic_write
    (oracle : String → Nat → Except String (List Nat)) (url : String)
    (dest : List String) (retries : Nat) (backoff : ℚ)
    (hne : dest ≠ [])
    (hok : (download_with_retries oracle url dest retries backoff).1.1 = true) :
    ∃ pre attempt data,
      oracle url attempt = .ok data ∧
      (download_with_retries oracle url dest retries backoff).2 =
        pre ++ (Ev.fetch url attempt :: Ev.mkdirp dest.dropLast ::
          Ev.create (tmpPath dest) :: (data.map (Ev.append (tmpPath dest)) ++
            [Ev.rename (tmpPath dest) dest])) ∧
      (∀ e ∈ pre, netOrSleep url e) ∧
      ∀ fs0 : FS, lookupF fs0.files dest = none →
        (∀ p q, (download_with_retries oracle url dest retries backoff).2 = p ++ q →
          q ≠ [] → lookupF (runEvs fs0 p).files dest = none) ∧
        lookupF (runEvs fs0
          ((download_with_retries oracle url dest retries backoff).2)).files dest = some data := by
  obtain ⟨pre, a, data, hoka, htr0, hpre⟩ :=
    dwrLoop_ok_trace oracle url dest backoff (List.range' 1 retries) none hok
  have htr : (download_with_retries oracle url dest retries backoff).2 =
      pre ++ successEvs url a dest data := htr0
  refine ⟨pre, a, data, hoka, htr, hpre, ?_⟩
  intro fs0 h0
  constructor
  · intro p q hsplit hq
    have hdl : ((download_with_retries oracle url dest retries backoff).2).dropLast =
        pre ++ (successEvs url a dest data).dropLast := by
      rw [htr]
      exact List.dropLast_append_of_ne_nil pre (successEvs_ne_nil url a dest data)
    have hnt : ∀ e ∈ ((download_with_retries oracle url dest retries backoff).2).dropLast,
        ¬ touches e dest := by
      rw [hdl]
      intro e he
      rcases List.mem_append.mp he with h | h
      · exact netOrSleep_not_touches (hpre e h) dest
      · exact not_touches_dropLast_successEvs hne e h
    have hpsub : ∀ e ∈ p, e ∈ ((download_with_retries oracle url dest retries backoff).2).dropLast := by
      intro e he
      have hsp : ((download_with_retries oracle url dest retries backoff).2).dropLast =
          p ++ q.dropLast := by
        rw [hsplit]
        exact List.dropLast_append_of_ne_nil p hq
      rw [hsp]
      exact List.mem_append_left _ he
    rw [lookup_runEvs_of_not_touches dest p fs0 (fun e he => hnt e (hpsub e he)), h0]
  · rw [htr]
    show lookupF (List.foldl applyEv fs0 (pre ++ successEvs url a dest data)).files dest = _
    rw [List.foldl_append]
    have hid : List.foldl applyEv fs0 pre = fs0 :=
      runEvs_fetch_sleep_id pre fs0 (fun e he => by
        rcases hpre e he with ⟨k, rfl⟩ | ⟨q', rfl⟩
        · exact Or.inl ⟨url, k, rfl⟩
        · exact Or.inr ⟨q', rfl⟩)
    rw [hid]
    exact lookup_runEvs_successEvs url a data fs0 hne

/-- Claim C10. On a successful attempt, `download_with_retries` itself emits
`mkdir(parents=True)` for the destination's parent, after the successful
fetch and before creating the temporary file; therefore running its trace on
a filesystem with **no** directories still ends with the destination written
(the Fetch Engine does not need the Materializer).  When every attempt
fails, the trace consists of fetches and sleeps only: no directory is ever
created for an all-failing task. -/
theorem claim_C10_engine_creates_parents
    (oracle : String → Nat → Except String (List Nat)) (url : String)
    (dest : List String) (retries : Nat) (backoff : ℚ) (hne : dest ≠ []) :
    ((download_with_retries oracle url dest retries backoff).1.1 = true →
      ∃ pre attempt data,
        oracle url attempt = .ok data ∧
        (download_with_retries oracle url dest retries backoff).2 =
          pre ++ (Ev.fetch url attempt :: Ev.mkdirp dest.dropLast ::
            Ev.create (tmpPath dest) :: (data.map (Ev.append (tmpPath dest)) ++
              [Ev.rename (tmpPath dest) dest])) ∧
        (∀ e ∈ pre, netOrSleep url e) ∧
        ∀ files0 : List (List String × List Nat),
          lookupF (runEvs ⟨[], files0⟩
            ((download_with_retries oracle url dest retries backoff).2)).files dest = some data) ∧
    ((∀ a ∈ List.range' 1 retries, ∃ err, oracle url a = .error err) →
      ∀ e ∈ (download_with_retries oracle url dest retries backoff).2, netOrSleep url e) := by
  constructor
  · intro hok
    obtain ⟨pre, a, data, hoka, htr0, hpre⟩ :=
      dwrLoop_ok_trace oracle url dest backoff (List.range' 1 retries) none hok
    have htr : (download_with_retries oracle url dest retries backoff).2 =
        pre ++ successEvs url a dest data := htr0
    refine ⟨pre, a, data, hoka, htr, hpre, ?_⟩
    intro files0
    rw [htr]
    show lookupF (List.foldl applyEv ⟨[], files0⟩ (pre ++ successEvs url a dest data)).files dest = _
    rw [List.foldl_append]
    have hid : List.foldl applyEv (⟨[], files0⟩ : FS) pre = ⟨[], files0⟩ :=
      runEvs_fetch_sleep_id pre _ (fun e he => by
        rcases hpre e he with ⟨k, rfl⟩ | ⟨q', rfl⟩
        · exact Or.inl ⟨url, k, rfl⟩
        · exact Or.inr ⟨q', rfl⟩)
    rw [hid]
    exact lookup_runEvs_successEvs url a data _ hne
  · intro hall
    exact (dwrLoop_allfail oracle url dest backoff (List.range' 1 retries) none hall).2

end DownloadTextures

namespace DownloadTextures

/-- Claim C6. If the destination file already exists when the task starts,
`process_all` counts the task as skipped and does nothing else: the state
record is unchanged except `skipped + 1` — no event (hence no network
request) is emitted, and the filesystem (including the existing file's
content) is untouched. -/
theorem claim_C6_skip_existing
    (oracle : String → Nat → Except String (List Nat)) (cn sn : String)
    (target : List String) (st : St) (var : JVal) (p : String) (d : List Nat)
    (hp : get_variation_pattern var = some p)
    (hlook : lookupF st.fs.files (target ++ [p ++ ".jpg"]) = some d) :
    handleVariation oracle cn sn target st var = { st with skipped := st.skipped + 1 } := by
  simp only [handleVariation, hp, hlook, Option.isSome_some, if_true]

end DownloadTextures

namespace DownloadTextures

/-- Claim C4. When the destination does not exist and every attempt fails with
a caught transient error: `download_with_retries` performs exactly 3
attempts, sleeps `backoff^1` after the first failure and `backoff^2` after
the second, does not sleep after the third, and returns failure carrying the
last error's description.  `process_all` then counts the task as failed with
exactly one error entry `"{pattern}: {last error}"` and the fold simply
continues with the remaining variations. -/
theorem claim_C4_retry_exhaustion
    (oracle : String → Nat → Except String (List Nat)) (p : String)
    (dest : List String) (backoff : ℚ) (e1 e2 e3 : String)
    (cn sn : String) (target : List String) (st : St) (var : JVal)
    (rest : List JVal)
    (hp : get_variation_pattern var = some p)
    (h1 : oracle (build_download_url p) 1 = .error e1)
    (h2 : oracle (build_download_url p) 2 = .error e2)
    (h3 : oracle (build_download_url p) 3 = .error e3) :
    download_with_retries oracle (build_download_url p) dest 3 backoff =
      ((false, e3),
       [Ev.fetch (build_download_url p) 1, Ev.sleep (backoff ^ 1),
        Ev.fetch (build_download_url p) 2, Ev.sleep (backoff ^ 2),
        Ev.fetch (build_download_url p) 3]) ∧
    (lookupF st.fs.files (target ++ [p ++ ".jpg"]) = none →
      handleVariation oracle cn sn target st var =
        { st with failed := st.failed + 1,
                  errors := st.errors ++ [p ++ ": " ++ e3],
                  evs := st.evs ++
                    [Ev.fetch (build_download_url p) 1, Ev.sleep (((3 : ℚ) / 2) ^ 1),
                     Ev.fetch (build_download_url p) 2, Ev.sleep (((3 : ℚ) / 2) ^ 2),
                     Ev.fetch (build_download_url p) 3] }) ∧
    ((var :: rest).foldl (handleVariation oracle cn sn target) st =
      rest.foldl (handleVariation oracle cn sn target) (handleVariation oracle cn sn target st var)) := by
  have hdwr : ∀ (dest' : List String) (b : ℚ),
      download_with_retries oracle (build_download_url p) dest' 3 b =
        ((false, e3),
         [Ev.fetch (build_download_url p) 1, Ev.sleep (b ^ 1),
          Ev.fetch (build_download_url p) 2, Ev.sleep (b ^ 2),
          Ev.fetch (build_download_url p) 3]) := by
    intro dest' b
    show dwrLoop oracle (build_download_url p) dest' b [1, 2, 3] none = _
    simp [dwrLoop, h1, h2, h3]
  refine ⟨hdwr dest backoff, ?_, rfl⟩
  intro hlook
  have hfs : runEvs st.fs
      [Ev.fetch (build_download_url p) 1, Ev.sleep (((3 : ℚ) / 2) ^ 1),
       Ev.fetch (build_download_url p) 2, Ev.sleep (((3 : ℚ) / 2) ^ 2),
       Ev.fetch (build_download_url p) 3] = st.fs := by
    refine runEvs_fetch_sleep_id _ _ ?_
    intro e he
    simp only [List.mem_cons] at he
    rcases he with rfl | rfl | rfl | rfl | rfl | he
    · exact Or.inl ⟨_, _, rfl⟩
    · exact Or.inr ⟨_, rfl⟩
    · exact Or.inl ⟨_, _, rfl⟩
    · exact Or.inr ⟨_, rfl⟩
    · exact Or.inl ⟨_, _, rfl⟩
    · simp at he
  simp only [handleVariation, hp, hlook, Option.isSome_none, Bool.false_eq_true, if_false,
    hdwr (target ++ [p ++ ".jpg"]) ((3 : ℚ) / 2), hfs]

end DownloadTextures

/-! ## Catalog claims (C1, C2, C3) -/

/-- Claim C2 (amended). A Variation lacking a usable pattern (in particular any
bare-string legacy Variation) produces no DownloadTask: `process_all` emits
no event for it and records it as its own distinct soft error entry
(`"Sin 'variation-pattern' -> {collection}/{subcollection}"`), counted in
`failed`, with everything else (counters, filesystem, trace) unchanged.
AssetSpec generation, however, is keyed on the variation *label*, not the
pattern, so a bare-string Variation with a non-empty sanitized token still
yields an AssetSpec (see the counterexample). -/
theorem claim_C2_missing_pattern :
    (∀ (oracle : String → Nat → Except String (List Nat)) (cn sn : String)
        (target : List String) (st : DownloadTextures.St) (var : JVal),
      DownloadTextures.get_variation_pattern var = none →
      DownloadTextures.handleVariation oracle cn sn target st var =
        { st with failed := st.failed + 1,
                  errors := st.errors ++
                    ["Sin 'variation-pattern' -> " ++ cn ++ "/" ++ sn] }) ∧
    (∀ s : String, DownloadTextures.get_variation_pattern (JVal.str s) = none) := by
  constructor
  · intro oracle cn sn target st var hp
    simp only [DownloadTextures.handleVariation, hp]
  · intro s
    rfl

/-- The one-collection/one-subcollection catalog whose only variation is the
legacy bare string `"Red"`. -/
def legacyCatalog : List JVal :=
  [JVal.obj [("collection-name", JVal.str "Wools"),
    ("subcollection", JVal.list [JVal.obj [("subcollection-name", JVal.str "Heavy"),
      ("variation", JVal.list [JVal.str "Red"])]])]]

/-- Claim C2, counterexample. A bare-string legacy Variation *does* produce an
AssetSpec in `build_material_specs` (the claim says it never does), while the
download pipeline gives it no pattern. -/
theorem claim_C2_counterexample :
    (CreateMaterials.build_material_specs (fun x => x) legacyCatalog []
      "/Game/Materials/MayerFabrics").map (fun s => s.name) = ["MI_WOOLS_HEAVY_RED"] ∧
    DownloadTextures.get_variation_pattern (JVal.str "Red") = none := ⟨rfl, rfl⟩

/-- Claim C1 (amended). Collections and Subcollections whose resolved name is
blank are dropped entirely by AssetSpec generation and by download-task
generation (nothing beneath them is processed).  The directory materializer
(`create-folders.py`) is the exception the original claim misses: it
substitutes fallback names (`"collection"` / `"subcollection"`, and slug
`"unnamed"` for a blank name) and materializes a directory for such nodes. -/
theorem claim_C1_blank_names :
    (∀ (sa : List Char → List Char) (r : List String) (a : String) (c : JVal),
        CreateMaterials.get_collection_name c = "" →
        CreateMaterials.specsForColl sa r a c = []) ∧
    (∀ (sa : List Char → List Char) (cr cf : String) (r : List String) (a : String) (sub : JVal),
        CreateMaterials.get_subcollection_name sub = "" →
        CreateMaterials.specsForSub sa cr cf r a sub = []) ∧
    (∀ (sa : List Char → List Char) (r : List String) (a : String) (d1 : List JVal)
        (c : JVal) (d2 : List JVal),
        CreateMaterials.get_collection_name c = "" →
        CreateMaterials.build_material_specs sa (d1 ++ c :: d2) r a =
          CreateMaterials.build_material_specs sa (d1 ++ d2) r a) ∧
    (∀ (oracle : String → Nat → Except String (List Nat)) (root : List String)
        (st : DownloadTextures.St) (c : JVal),
        DownloadTextures.get_collection_name c = "" →
        DownloadTextures.processColl oracle root st c = st) ∧
    (∀ (oracle : String → Nat → Except String (List Nat)) (root : List String)
        (cn cf : String) (st : DownloadTextures.St) (sub : JVal),
        DownloadTextures.get_subcollection_name sub = "" →
        DownloadTextures.processSub oracle root cn cf st sub = st) ∧
    (∀ (oracle : String → Nat → Except String (List Nat)) (root : List String)
        (fs0 : DownloadTextures.FS) (d1 : List JVal) (c : JVal) (d2 : List JVal),
        DownloadTextures.get_collection_name c = "" →
        DownloadTextures.process_all oracle (d1 ++ c :: d2) root fs0 =
          DownloadTextures.process_all oracle (d1 ++ d2) root fs0) ∧
    (CreateFolders.create_structure [JVal.obj [("collection-name", JVal.str " ")]] [] [] =
      (⟨1, 0, 0, 0⟩, [["unnamed"]])) := by
  have hcoll : ∀ (sa : List Char → List Char) (r : List String) (a : String) (c : JVal),
      CreateMaterials.get_collection_name c = "" →
      CreateMaterials.specsForColl sa r a c = [] := by
    intro sa r a c h
    simp [CreateMaterials.specsForColl, h]
  have hdcoll : ∀ (oracle : String → Nat → Except String (List Nat)) (root : List String)
      (st : DownloadTextures.St) (c : JVal),
      DownloadTextures.get_collection_name c = "" →
      DownloadTextures.processColl oracle root st c = st := by
    intro oracle root st c h
    simp [DownloadTextures.processColl, h]
  refine ⟨hcoll, ?_, ?_, hdcoll, ?_, ?_, rfl⟩
  · intro sa cr cf r a sub h
    simp [CreateMaterials.specsForSub, h]
  · intro sa r a d1 c d2 h
    simp [CreateMaterials.build_material_specs, hcoll sa r a c h]
  · intro oracle root cn cf st sub h
    simp [DownloadTextures.processSub, h]
  · intro oracle root fs0 d1 c d2 h
    unfold DownloadTextures.process_all
    rw [List.foldl_append, List.foldl_cons, hdcoll oracle root _ c h, ← List.foldl_append]

/-- Claim C1, counterexample. A collection whose resolved name is blank
(`"collection-name": " "`) is dropped by the adapter used by the AssetSpec
and download pipelines, yet the directory materializer still materializes a
directory for it, under the placeholder slug `"unnamed"`. -/
theorem claim_C1_counterexample :
    CreateMaterials.get_collection_name (JVal.obj [("collection-name", JVal.str " ")]) = "" ∧
    DownloadTextures.get_collection_name (JVal.obj [("collection-name", JVal.str " ")]) = "" ∧
    (CreateFolders.create_structure [JVal.obj [("collection-name", JVal.str " ")]] [] []
      ).1.created_collections = 1 ∧
    (CreateFolders.create_structure [JVal.obj [("collection-name", JVal.str " ")]] [] []
      ).2 = [["unnamed"]] := ⟨rfl, rfl, rfl, rfl⟩

/-- Claim C3 (amended). `create_materials.py` and `downloadTextures.py` resolve
the collection name identically, as `collection-name` else `collection`
(stripped).  `create-folders.py` does **not** follow that rule: it resolves
`collection-name` else `name` else the literal placeholder `"collection"`.
When `collection-name` is present and non-empty all three agree (up to the
adapter's strip). -/
theorem claim_C3_collection_name_resolution :
    (∀ d : JVal, CreateMaterials.get_collection_name d =
        DownloadTextures.get_collection_name d) ∧
    (∀ fields : List (String × JVal), CreateFolders.col_name (JVal.obj fields) =
        asStr (pyOr (pyGet fields "collection-name")
          (pyOr (pyGet fields "name") (JVal.str "collection")))) ∧
    (∀ (fields : List (String × JVal)) (s : String),
        pyGet fields "collection-name" = JVal.str s → s ≠ "" →
        CreateFolders.col_name (JVal.obj fields) = s ∧
        CreateMaterials.get_collection_name (JVal.obj fields) = stripS s) := by
  refine ⟨fun _ => rfl, fun _ => rfl, ?_⟩
  intro fields s hget hs
  have htr : truthy (JVal.str s) = true := by
    show (!s.isEmpty) = true
    cases he : s.isEmpty
    · rfl
    · exact absurd ((String.isEmpty_iff s).mp he) hs
  constructor
  · simp [CreateFolders.col_name, asObj, hget, pyOr, htr, asStr]
  · simp [CreateMaterials.get_collection_name, asObj, hget, pyOr, htr, asStr]

/-- Claim C3, counterexample. For a collection supplied as `{"name": "Wools"}`,
the materializer resolves the collection name through the field `name`
(yielding `"Wools"`, and a directory `wools/`), while the adapter shared by
the other two components resolves it to blank — so not every component
restricts itself to `collection-name`/`collection`. -/
theorem claim_C3_counterexample :
    CreateFolders.col_name (JVal.obj [("name", JVal.str "Wools")]) = "Wools" ∧
    CreateMaterials.get_collection_name (JVal.obj [("name", JVal.str "Wools")]) = "" ∧
    DownloadTextures.get_collection_name (JVal.obj [("name", JVal.str "Wools")]) = "" ∧
    (CreateFolders.create_structure [JVal.obj [("name", JVal.str "Wools")]] [] []
      ).2 = [["wools"]] := ⟨rfl, rfl, rfl, rfl⟩

/-! ## Witnesses: each hypothesis-bearing claim theorem applied at a concrete
input, with every hypothesis discharged by computation. -/

/-- A fetch oracle whose every attempt succeeds with the byte `7`. -/
def okOracle : String → Nat → Except String (List Nat) := fun _ _ => Except.ok [7]

/-- A fetch oracle whose every attempt fails with a transient error. -/
def failOracle : String → Nat → Except String (List Nat) := fun _ _ => Except.error "boom"

theorem claim_C1_witness :
    CreateMaterials.build_material_specs (fun x => x) ([] ++ JVal.obj [] :: []) [] "A" =
      CreateMaterials.build_material_specs (fun x => x) ([] ++ []) [] "A" :=
  claim_C1_blank_names.2.2.1 (fun x => x) [] "A" [] (JVal.obj []) [] rfl

theorem claim_C2_witness :
    DownloadTextures.handleVariation failOracle "C" "S" []
      ⟨0, 0, 0, [], ⟨[], []⟩, []⟩ (JVal.str "Red") =
      ⟨0, 0, 1, ["Sin 'variation-pattern' -> C/S"], ⟨[], []⟩, []⟩ := by
  rw [claim_C2_missing_pattern.1 failOracle "C" "S" [] ⟨0, 0, 0, [], ⟨[], []⟩, []⟩
    (JVal.str "Red") rfl]
  rfl

theorem claim_C3_witness :
    CreateFolders.col_name (JVal.obj [("collection-name", JVal.str "Wools")]) = "Wools" ∧
    CreateMaterials.get_collection_name
      (JVal.obj [("collection-name", JVal.str "Wools")]) = stripS "Wools" :=
  claim_C3_collection_name_resolution.2.2 [("collection-name", JVal.str "Wools")]
    "Wools" rfl (by decide)

theorem claim_C4_witness :
    DownloadTextures.download_with_retries failOracle
      (DownloadTextures.build_download_url "804-004") [] 3 2 =
      ((false, "boom"),
       [DownloadTextures.Ev.fetch (DownloadTextures.build_download_url "804-004") 1,
        DownloadTextures.Ev.sleep ((2 : ℚ) ^ 1),
        DownloadTextures.Ev.fetch (DownloadTextures.build_download_url "804-004") 2,
        DownloadTextures.Ev.sleep ((2 : ℚ) ^ 2),
        DownloadTextures.Ev.fetch (DownloadTextures.build_download_url "804-004") 3]) :=
  (DownloadTextures.claim_C4_retry_exhaustion failOracle "804-004" [] 2 "boom" "boom" "boom" "C" "S" []
    ⟨0, 0, 0, [], ⟨[], []⟩, []⟩
    (JVal.obj [("variation-pattern", JVal.str "804-004")]) [] rfl rfl rfl rfl).1

theorem claim_C5_witness :
    ∃ pre attempt data,
      okOracle "u" attempt = Except.ok data ∧
      (DownloadTextures.download_with_retries okOracle "u" ["f.jpg"] 3 2).2 =
        pre ++ (DownloadTextures.Ev.fetch "u" attempt ::
          DownloadTextures.Ev.mkdirp (["f.jpg"].dropLast) ::
          DownloadTextures.Ev.create (DownloadTextures.tmpPath ["f.jpg"]) ::
          (data.map (DownloadTextures.Ev.append (DownloadTextures.tmpPath ["f.jpg"])) ++
            [DownloadTextures.Ev.rename (DownloadTextures.tmpPath ["f.jpg"]) ["f.jpg"]])) ∧
      (∀ e ∈ pre, DownloadTextures.netOrSleep "u" e) ∧
      ∀ fs0 : DownloadTextures.FS,
        DownloadTextures.lookupF fs0.files ["f.jpg"] = none →
        (∀ p q, (DownloadTextures.download_with_retries okOracle "u" ["f.jpg"] 3 2).2 = p ++ q →
          q ≠ [] →
          DownloadTextures.lookupF (DownloadTextures.runEvs fs0 p).files ["f.jpg"] = none) ∧
        DownloadTextures.lookupF (DownloadTextures.runEvs fs0
          ((DownloadTextures.download_with_retries okOracle "u" ["f.jpg"] 3 2).2)).files ["f.jpg"]
          = some data :=
  DownloadTextures.claim_C5_atomic_write okOracle "u" ["f.jpg"] 3 2 (by decide) rfl

theorem claim_C6_witness :
    DownloadTextures.handleVariation failOracle "C" "S" []
      ⟨0, 0, 0, [], ⟨[], [(["804-004.jpg"], [1])]⟩, []⟩
      (JVal.obj [("variation-pattern", JVal.str "804-004")]) =
      ⟨0, 1, 0, [], ⟨[], [(["804-004.jpg"], [1])]⟩, []⟩ := by
  rw [DownloadTextures.claim_C6_skip_existing failOracle "C" "S" []
    ⟨0, 0, 0, [], ⟨[], [(["804-004.jpg"], [1])]⟩, []⟩
    (JVal.obj [("variation-pattern", JVal.str "804-004")]) "804-004" [1] rfl rfl]

theorem claim_C8_witness : isTokOut 'M' = true :=
  claim_C8_tokenize.2.1 (fun x => x) "Modern Silk".data 'M' (by decide)

theorem claim_C10_witness :
    ((DownloadTextures.download_with_retries okOracle "u" ["f.jpg"] 3 2).1.1 = true →
      ∃ pre attempt data,
        okOracle "u" attempt = Except.ok data ∧
        (DownloadTextures.download_with_retries okOracle "u" ["f.jpg"] 3 2).2 =
          pre ++ (DownloadTextures.Ev.fetch "u" attempt ::
            DownloadTextures.Ev.mkdirp (["f.jpg"].dropLast) ::
            DownloadTextures.Ev.create (DownloadTextures.tmpPath ["f.jpg"]) ::
            (data.map (DownloadTextures.Ev.append (DownloadTextures.tmpPath ["f.jpg"])) ++
              [DownloadTextures.Ev.rename (DownloadTextures.tmpPath ["f.jpg"]) ["f.jpg"]])) ∧
        (∀ e ∈ pre, DownloadTextures.netOrSleep "u" e) ∧
        ∀ files0 : List (List String × List Nat),
          DownloadTextures.lookupF (DownloadTextures.runEvs ⟨[], files0⟩
            ((DownloadTextures.download_with_retries okOracle "u" ["f.jpg"] 3 2).2)).files
            ["f.jpg"] = some data) ∧
    ((∀ a ∈ List.range' 1 3, ∃ err, okOracle "u" a = Except.error err) →
      ∀ e ∈ (DownloadTextures.download_with_retries okOracle "u" ["f.jpg"] 3 2).2,
        DownloadTextures.netOrSleep "u" e) :=
  DownloadTextures.claim_C10_engine_creates_parents okOracle "u" ["f.jpg"] 3 2 (by decide)
